import Mathlib

/-!
# Verification of the Fern compiler's runtime, layout scanner and driver

Shallow embedding of the C sources of the Fern repository:
* `src/runtime/fern_runtime.c` — Result/Option packing and list helpers,
* `src/editor/tree-sitter-fern/src/scanner.c` — the indentation scanner,
* `src/src/main.c` — the compiler driver.

C `int64_t` values are modelled as `Int` together with explicit
two's-complement bit-pattern conversions (`toBits64` / `ofBits64`);
C `uint16_t` arithmetic is modelled as `Nat` arithmetic modulo `2^16`.
Left shifts that overflow `int64_t` are modelled as wraparound modulo
`2^64`, which is what every mainstream compiler produces for this code.
-/

namespace Fern

/-! ## Machine-integer helpers -/

/-- The bit pattern of an `int64_t` value, as a natural number below `2^64`
(two's complement). -/
def toBits64 (v : Int) : Nat := (v % (2 ^ 64 : Nat)).toNat

/-- Reinterpret a 64-bit pattern as a signed `int64_t` value
(two's complement decoding). -/
def ofBits64 (n : Nat) : Int :=
  if n % 2 ^ 64 < 2 ^ 63 then ((n % 2 ^ 64 : Nat) : Int)
  else ((n % 2 ^ 64 : Nat) : Int) - 2 ^ 64

/-- Sign-extension of the low 32 bits of a pattern to `int64_t`:
the C expression `(int64_t)((int32_t) x)`. -/
def sext32 (n : Nat) : Int :=
  if n % 2 ^ 32 < 2 ^ 31 then ((n % 2 ^ 32 : Nat) : Int)
  else ((n % 2 ^ 32 : Nat) : Int) - 2 ^ 32

/-- `v` fits in `int64_t`. -/
def Int64Range (v : Int) : Prop := -(2 ^ 63) ≤ v ∧ v < 2 ^ 63

instance (v : Int) : Decidable (Int64Range v) := by
  unfold Int64Range; infer_instance

/-! ## Result type (fern_runtime.c lines 253–358)

```c
int64_t fern_result_ok(int64_t value) {
    return ((value & 0xFFFFFFFF) << 32) | RESULT_TAG_OK;   /* tag 0 */
}
int64_t fern_result_err(int64_t value) {
    return ((value & 0xFFFFFFFF) << 32) | RESULT_TAG_ERR;  /* tag 1 */
}
int64_t fern_result_is_ok(int64_t result) {
    return (result & 0xFFFFFFFF) == RESULT_TAG_OK ? 1 : 0;
}
int64_t fern_result_unwrap(int64_t result) {
    return (int64_t)((int32_t)(result >> 32));
}
```
-/

def fern_result_ok (value : Int) : Int :=
  ofBits64 ((toBits64 value % 2 ^ 32) * 2 ^ 32 + 0)

def fern_result_err (value : Int) : Int :=
  ofBits64 ((toBits64 value % 2 ^ 32) * 2 ^ 32 + 1)

def fern_result_is_ok (result : Int) : Int :=
  if toBits64 result % 2 ^ 32 = 0 then 1 else 0

def fern_result_unwrap (result : Int) : Int :=
  sext32 (toBits64 result / 2 ^ 32)

/-! ## Option type (fern_runtime.c lines 360–432)

```c
int64_t fern_option_some(int64_t value) {
    return ((value & 0xFFFFFFFF) << 32) | OPTION_TAG_SOME;  /* tag 1 */
}
int64_t fern_option_none(void) { return OPTION_TAG_NONE; }  /* 0 */
int64_t fern_option_is_some(int64_t option) {
    return (option & 0xFFFFFFFF) == OPTION_TAG_SOME ? 1 : 0;
}
int64_t fern_option_unwrap(int64_t option) {
    return (int64_t)((int32_t)(option >> 32));
}
```
-/

def fern_option_some (value : Int) : Int :=
  ofBits64 ((toBits64 value % 2 ^ 32) * 2 ^ 32 + 1)

def fern_option_none : Int := 0

def fern_option_is_some (option : Int) : Int :=
  if toBits64 option % 2 ^ 32 = 1 then 1 else 0

def fern_option_unwrap (option : Int) : Int :=
  sext32 (toBits64 option / 2 ^ 32)

/-! ### Bit-pattern lemmas -/

lemma toBits64_lt (v : Int) : toBits64 v < 2 ^ 64 := by
  unfold toBits64
  have h : (0 : Int) < (2 ^ 64 : Nat) := by positivity
  have := Int.emod_lt_of_pos v h
  omega

lemma toBits64_ofBits64 (n : Nat) : toBits64 (ofBits64 n) = n % 2 ^ 64 := by
  unfold toBits64 ofBits64
  have h : n % 2 ^ 64 < 2 ^ 64 := Nat.mod_lt _ (by positivity)
  split <;> omega

lemma toBits64_nonneg_eq {v : Int} (h0 : 0 ≤ v) (h1 : v < 2 ^ 64) :
    toBits64 v = v.toNat := by
  unfold toBits64
  omega

lemma toBits64_neg_eq {v : Int} (h0 : -(2 ^ 64) ≤ v) (h1 : v < 0) :
    toBits64 v = (v + 2 ^ 64).toNat := by
  unfold toBits64
  omega

lemma pack_bits (b t : Nat) (hb : b < 2 ^ 32) (ht : t < 2 ^ 32) :
    toBits64 (ofBits64 (b * 2 ^ 32 + t)) = b * 2 ^ 32 + t := by
  rw [toBits64_ofBits64]
  apply Nat.mod_eq_of_lt
  omega

lemma sext32_mod (n : Nat) : sext32 (n % 2 ^ 32) = sext32 n := by
  unfold sext32
  split_ifs <;> omega

lemma toBits64_mod32_lt (v : Int) : toBits64 v % 2 ^ 32 < 2 ^ 32 :=
  Nat.mod_lt _ (by positivity)

lemma bits_result_ok (v : Int) :
    toBits64 (fern_result_ok v) = (toBits64 v % 2 ^ 32) * 2 ^ 32 + 0 :=
  pack_bits _ _ (toBits64_mod32_lt v) (by norm_num)

lemma bits_result_err (v : Int) :
    toBits64 (fern_result_err v) = (toBits64 v % 2 ^ 32) * 2 ^ 32 + 1 :=
  pack_bits _ _ (toBits64_mod32_lt v) (by norm_num)

lemma bits_option_some (v : Int) :
    toBits64 (fern_option_some v) = (toBits64 v % 2 ^ 32) * 2 ^ 32 + 1 :=
  pack_bits _ _ (toBits64_mod32_lt v) (by norm_num)

lemma unwrap_result_ok (v : Int) :
    fern_result_unwrap (fern_result_ok v) = sext32 (toBits64 v) := by
  unfold fern_result_unwrap
  rw [bits_result_ok, ← sext32_mod (toBits64 v)]
  congr 1
  omega

lemma unwrap_result_err (v : Int) :
    fern_result_unwrap (fern_result_err v) = sext32 (toBits64 v) := by
  unfold fern_result_unwrap
  rw [bits_result_err, ← sext32_mod (toBits64 v)]
  congr 1
  omega

lemma unwrap_option_some (v : Int) :
    fern_option_unwrap (fern_option_some v) = sext32 (toBits64 v) := by
  unfold fern_option_unwrap
  rw [bits_option_some, ← sext32_mod (toBits64 v)]
  congr 1
  omega

lemma sext32_toBits64_eq_iff (v : Int) (hv : Int64Range v) :
    sext32 (toBits64 v) = v ↔ -(2 ^ 31) ≤ v ∧ v < 2 ^ 31 := by
  obtain ⟨h0, h1⟩ := hv
  unfold sext32 toBits64
  split_ifs <;> omega

/-- C1. Result and Option pack into one 64-bit word: the low 32 bits are the
tag (`Ok = 0`, `Err = 1`; `None = 0`, `Some = 1`), the high 32 bits hold the
payload (its low 32 bits); `fern_result_unwrap` / `fern_option_unwrap` return
the sign-extension of the high 32 bits; `fern_result_is_ok` is 1 on every
`fern_result_ok v` and 0 on every `fern_result_err v`; `fern_option_is_some`
is 1 on every `fern_option_some v` and 0 on `fern_option_none`. -/
theorem result_option_packing (v : Int) (_hv : Int64Range v) :
    (toBits64 (fern_result_ok v) % 2 ^ 32 = 0
      ∧ toBits64 (fern_result_ok v) / 2 ^ 32 = toBits64 v % 2 ^ 32)
    ∧ (toBits64 (fern_result_err v) % 2 ^ 32 = 1
      ∧ toBits64 (fern_result_err v) / 2 ^ 32 = toBits64 v % 2 ^ 32)
    ∧ (toBits64 (fern_option_some v) % 2 ^ 32 = 1
      ∧ toBits64 (fern_option_some v) / 2 ^ 32 = toBits64 v % 2 ^ 32)
    ∧ toBits64 fern_option_none % 2 ^ 32 = 0
    ∧ fern_result_unwrap (fern_result_ok v) = sext32 (toBits64 v)
    ∧ fern_result_unwrap (fern_result_err v) = sext32 (toBits64 v)
    ∧ fern_option_unwrap (fern_option_some v) = sext32 (toBits64 v)
    ∧ fern_result_is_ok (fern_result_ok v) = 1
    ∧ fern_result_is_ok (fern_result_err v) = 0
    ∧ fern_option_is_some (fern_option_some v) = 1
    ∧ fern_option_is_some fern_option_none = 0 := by
  have hb := toBits64_mod32_lt v
  refine ⟨⟨?_, ?_⟩, ⟨?_, ?_⟩, ⟨?_, ?_⟩, ?_, unwrap_result_ok v, unwrap_result_err v,
    unwrap_option_some v, ?_, ?_, ?_, ?_⟩
  · rw [bits_result_ok]; omega
  · rw [bits_result_ok]; omega
  · rw [bits_result_err]; omega
  · rw [bits_result_err]; omega
  · rw [bits_option_some]; omega
  · rw [bits_option_some]; omega
  · rfl
  · unfold fern_result_is_ok; rw [bits_result_ok]; split_ifs <;> omega
  · unfold fern_result_is_ok; rw [bits_result_err]; split_ifs <;> omega
  · unfold fern_option_is_some; rw [bits_option_some]; split_ifs <;> omega
  · rfl

/-- Witness for `result_option_packing` at the concrete payload `v = -5`. -/
theorem result_option_packing_witness :
    Int64Range (-5)
    ∧ fern_result_is_ok (fern_result_ok (-5)) = 1
    ∧ fern_result_unwrap (fern_result_ok (-5)) = sext32 (toBits64 (-5)) :=
  ⟨by decide, (result_option_packing (-5) (by decide)).2.2.2.2.2.2.2.1,
    (result_option_packing (-5) (by decide)).2.2.2.2.1⟩

/-- C9. The constructors keep only the low 32 bits of the payload: the
pack/unwrap round trip returns `v` exactly when `-2^31 ≤ v < 2^31`, and for
no `int64_t` payload outside that range. -/
theorem pack_unwrap_roundtrip (v : Int) (hv : Int64Range v) :
    (fern_result_unwrap (fern_result_ok v) = v ↔ -(2 ^ 31) ≤ v ∧ v < 2 ^ 31)
    ∧ (fern_result_unwrap (fern_result_err v) = v ↔ -(2 ^ 31) ≤ v ∧ v < 2 ^ 31)
    ∧ (fern_option_unwrap (fern_option_some v) = v ↔ -(2 ^ 31) ≤ v ∧ v < 2 ^ 31) := by
  rw [unwrap_result_ok, unwrap_result_err, unwrap_option_some]
  exact ⟨sext32_toBits64_eq_iff v hv, sext32_toBits64_eq_iff v hv,
    sext32_toBits64_eq_iff v hv⟩

/-- Witness for `pack_unwrap_roundtrip`: the round trip restores `-7` (in
range) and fails to restore `2^31` (out of range). -/
theorem pack_unwrap_roundtrip_witness :
    (fern_result_unwrap (fern_result_ok (-7)) = -7)
    ∧ ¬ fern_option_unwrap (fern_option_some (2 ^ 31)) = 2 ^ 31 :=
  ⟨((pack_unwrap_roundtrip (-7) (by decide)).1).mpr (by decide),
    fun h => by
      have := ((pack_unwrap_roundtrip (2 ^ 31) (by decide)).2.2).mp h
      exact absurd this.2 (by decide)⟩

/-! ## Lists (fern_runtime.c lines 107–230, fern_runtime.h lines 79–123)

A `FernList` owns a heap array of `cap` slots of which the first `len` are
meaningful; the model keeps exactly the meaningful elements in `data`
(slots past `len` are never read by any list function) together with the
`cap` field.  The heap is modelled as the list of allocated `FernList`
records, a pointer as an index into it; `malloc` appends a record, so
allocation never touches earlier records.

```c
FernList* fern_list_with_capacity(int64_t cap) {
    assert(cap > 0);
    FernList* list = malloc(sizeof(FernList));
    list->data = malloc((size_t)cap * sizeof(int64_t));
    list->len = 0;  list->cap = cap;
    return list;
}
FernList* fern_list_push(FernList* list, int64_t value) {
    assert(list != NULL);
    int64_t new_cap = list->len + 1;
    if (new_cap < list->cap) { new_cap = list->cap; }
    FernList* new_list = fern_list_with_capacity(new_cap);
    for (int64_t i = 0; i < list->len; i++) { new_list->data[i] = list->data[i]; }
    new_list->data[list->len] = value;
    new_list->len = list->len + 1;
    return new_list;
}
```
-/

structure FernList where
  data : List Int
  cap : Nat
  deriving DecidableEq, Repr

/-- `list->len`: the number of meaningful elements. -/
def FernList.len (l : FernList) : Nat := l.data.length

/-- The heap of allocated lists; a `FernList*` is an index into it. -/
abbrev ListHeap := List FernList

/-- `fern_list_with_capacity`: allocate a fresh empty list of capacity
`cap` at a fresh address (the assertion `cap > 0` is the caller's duty and
holds at the single call site inside `fern_list_push`). -/
def fern_list_with_capacity (h : ListHeap) (cap : Nat) : ListHeap × Nat :=
  (h ++ [⟨[], cap⟩], h.length)

/-- `fern_list_push list value`: build a brand-new list whose elements are
the input's followed by `value`; the input list is only read.  `none`
models the `assert(list != NULL)` failure on an invalid pointer. -/
def fern_list_push (h : ListHeap) (a : Nat) (value : Int) : Option (ListHeap × Nat) :=
  match h[a]? with
  | none => none
  | some l =>
      let new_cap := if l.len + 1 < l.cap then l.cap else l.len + 1
      let p := fern_list_with_capacity h new_cap
      some (p.1.set p.2 ⟨l.data ++ [value], new_cap⟩, p.2)

/-- `fern_list_len` reads the `len` field. -/
def fern_list_len (h : ListHeap) (a : Nat) : Option Nat :=
  h[a]?.map FernList.len

/-- `fern_list_get` reads slot `index`; the assertion
`0 <= index < list->len` makes an out-of-range read a failure. -/
def fern_list_get (h : ListHeap) (a : Nat) (index : Nat) : Option Int :=
  h[a]?.bind fun l => l.data[index]?

/-- C10. `fern_list_push` leaves the input list (and every other allocated
list) untouched and returns a fresh list of length `len + 1` whose first
`len` elements are the input's elements in order and whose last element is
the pushed value. -/
theorem list_push_pure (h : ListHeap) (a : Nat) (v : Int) (l : FernList)
    (ha : h[a]? = some l) :
    ∃ h' a', fern_list_push h a v = some (h', a')
      ∧ a' = h.length
      ∧ (∀ i, i < h.length → h'[i]? = h[i]?)
      ∧ h'[a']? = some (⟨l.data ++ [v],
          if l.len + 1 < l.cap then l.cap else l.len + 1⟩ : FernList)
      ∧ (∀ l', h'[a']? = some l' →
          l'.len = l.len + 1
          ∧ (∀ i, i < l.len → l'.data[i]? = l.data[i]?)
          ∧ l'.data[l.len]? = some v) := by
  have hlen : h.length < (h ++ [(⟨[], if l.len + 1 < l.cap then l.cap
      else l.len + 1⟩ : FernList)]).length := by
    simp
  refine ⟨(h ++ [(⟨[], if l.len + 1 < l.cap then l.cap else l.len + 1⟩ : FernList)]).set
      h.length ⟨l.data ++ [v], if l.len + 1 < l.cap then l.cap else l.len + 1⟩,
    h.length, ?_, rfl, ?_, ?_, ?_⟩
  · simp only [fern_list_push, ha, fern_list_with_capacity]
  · intro i hi
    rw [List.getElem?_set_ne (by omega), List.getElem?_append_left hi]
  · rw [List.getElem?_set_self hlen]
  · rw [List.getElem?_set_self hlen]
    rintro l' hl'
    injection hl' with hl'
    subst hl'
    refine ⟨by simp [FernList.len], fun i hi => List.getElem?_append_left hi, ?_⟩
    exact List.getElem?_concat_length l.data v

/-- Witness for `list_push_pure`: pushing `7` onto the one-element list
`[3]` stored at address 0 of a one-record heap. -/
theorem list_push_pure_witness :
    ∃ h' a', fern_list_push [⟨[3], 8⟩] 0 7 = some (h', a')
      ∧ a' = 1
      ∧ (∀ i, i < 1 → h'[i]? = ([(⟨[3], 8⟩ : FernList)] : ListHeap)[i]?)
      ∧ h'[a']? = some (⟨[3, 7], 8⟩ : FernList)
      ∧ (∀ l', h'[a']? = some l' →
          l'.len = 2
          ∧ (∀ i, i < 1 → l'.data[i]? = [(3 : Int)][i]?)
          ∧ l'.data[1]? = some 7) :=
  list_push_pure [⟨[3], 8⟩] 0 7 ⟨[3], 8⟩ rfl

/-! ## Layout scanner (editor/tree-sitter-fern/src/scanner.c)

The scanner state is the indentation stack, an array of `uint16_t`
widths of which `indent_stack_size` entries are live; it is modelled
top-first (`stack.head` is `indent_stack[indent_stack_size - 1]`,
pushing conses, popping takes the tail).  The input is the remaining
character stream, `lexer->lookahead` its head, `lexer->advance` its tail,
`lexer->eof` emptiness.  A scan invocation either produces a token, the
new stack and the remaining stream, or returns `none` (the C scanner
returning `false`: no external token can be produced — the scanner never
mutates the stack before returning `false`). -/

inductive LayoutToken
  | NEWLINE
  | INDENT
  | DEDENT
  deriving DecidableEq, Repr

/-- The stack of indent widths, top first. -/
abbrev IndentStack := List Nat

/-- `tree_sitter_fern_external_scanner_create`: stack `[0]` of size 1. -/
def scanner_create : IndentStack := [0]

/-- `MAX_INDENT_STACK`. -/
def MAX_INDENT_STACK : Nat := 256

/-- `tree_sitter_fern_external_scanner_serialize`: an over-full stack
serializes to an empty buffer, otherwise `memcpy` copies the live
`uint16_t` entries (the buffer is modelled as that sequence of widths). -/
def scanner_serialize (stack : IndentStack) : List Nat :=
  if MAX_INDENT_STACK ≤ stack.length then [] else stack

/-- `tree_sitter_fern_external_scanner_deserialize`: a zero-length buffer
resets to the initial state, otherwise the stack is the buffer content. -/
def scanner_deserialize (buffer : List Nat) : IndentStack :=
  if buffer.length = 0 then [0] else buffer

/-- `count_indent`: consume leading spaces and tabs, counting a tab as 4
columns and a space as 1, in `uint16_t` arithmetic.  Returns the
accumulated width and the remaining stream. -/
def count_indent : List Char → Nat → Nat × List Char
  | [], indent => (indent, [])
  | c :: rest, indent =>
      if c = ' ' ∨ c = '\t' then
        count_indent rest ((indent + if c = '\t' then 4 else 1) % 65536)
      else (indent, c :: rest)

lemma count_indent_suffix_le (input : List Char) (acc : Nat) :
    (count_indent input acc).2.length ≤ input.length := by
  induction input generalizing acc with
  | nil => simp [count_indent]
  | cons c rest ih =>
      rw [count_indent]
      split
      · exact le_trans (ih _) (by simp)
      · simp

/-- The blank-line loop inside the `INDENT` branch of
`tree_sitter_fern_external_scanner_scan`: while the lookahead is a line
break, consume it and recount the indentation of the following line. -/
def skip_blank_lines (input : List Char) (indent : Nat) : Nat × List Char :=
  match input with
  | [] => (indent, [])
  | c :: rest =>
      if c = '\n' ∨ c = '\r' then
        skip_blank_lines (count_indent rest 0).2 (count_indent rest 0).1
      else (indent, c :: rest)
termination_by input.length
decreasing_by
  simp only [List.length_cons]
  exact Nat.lt_succ_of_le (count_indent_suffix_le rest 0)

/-- The `NEWLINE` branch of the scan function: consume one line break
(plus a following `'\n'`, so `"\r\n"` is one break) and emit `NEWLINE`. -/
def scan_newline (stack : IndentStack) (validNewline : Bool)
    (input : List Char) : Option (LayoutToken × IndentStack × List Char) :=
  if validNewline then
    match input with
    | '\n' :: rest =>
        some (.NEWLINE, stack,
          match rest with
          | '\n' :: rest2 => rest2
          | _ => rest)
    | '\r' :: rest =>
        some (.NEWLINE, stack,
          match rest with
          | '\n' :: rest2 => rest2
          | _ => rest)
    | _ => none
  else none

/-- The `INDENT` branch of the scan function followed by the `NEWLINE`
branch: count the width, skip blank lines, refuse comment lines, push and
emit `INDENT` when the width exceeds the stack top and the stack is not
full. -/
def scan_indent_branch (stack : IndentStack) (validNewline validIndent : Bool)
    (input : List Char) : Option (LayoutToken × IndentStack × List Char) :=
  if validIndent then
    let p := count_indent input 0
    let q := skip_blank_lines p.2 p.1
    if q.2.head? = some '#' then none
    else if stack.headD 0 < q.1 then
      if MAX_INDENT_STACK ≤ stack.length then none
      else some (.INDENT, q.1 :: stack, q.2)
    else scan_newline stack validNewline q.2
  else scan_newline stack validNewline input

/-- `tree_sitter_fern_external_scanner_scan`.  The `DEDENT` branch runs
first when `DEDENT` is a valid symbol and the stack holds more than one
entry: it counts the current indentation (consuming the whitespace), pops
and emits one `DEDENT` at end of file or when the width is below the stack
top, refuses blank and comment lines, and otherwise falls through — with
the whitespace already consumed — to the `INDENT` and `NEWLINE` branches. -/
def scan (stack : IndentStack) (validNewline validIndent validDedent : Bool)
    (input : List Char) : Option (LayoutToken × IndentStack × List Char) :=
  if validDedent ∧ 1 < stack.length then
    let p := count_indent input 0
    if p.2 = [] then some (.DEDENT, stack.tail, p.2)
    else if p.2.head? = some '\n' ∨ p.2.head? = some '\r' ∨ p.2.head? = some '#' then
      none
    else if p.1 < stack.headD 0 then some (.DEDENT, stack.tail, p.2)
    else scan_indent_branch stack validNewline validIndent p.2
  else scan_indent_branch stack validNewline validIndent input

/-! ### Scanner helper lemmas -/

lemma count_indent_no_ws (input : List Char) (acc : Nat)
    (h1 : input.head? ≠ some ' ') (h2 : input.head? ≠ some '\t') :
    count_indent input acc = (acc, input) := by
  cases input with
  | nil => rfl
  | cons c rest =>
      rw [count_indent, if_neg]
      simp only [List.head?_cons, ne_eq, Option.some.injEq] at h1 h2
      tauto

lemma skip_blank_lines_no_newline (input : List Char) (indent : Nat)
    (h1 : input.head? ≠ some '\n') (h2 : input.head? ≠ some '\r') :
    skip_blank_lines input indent = (indent, input) := by
  cases input with
  | nil => rw [skip_blank_lines]
  | cons c rest =>
      rw [skip_blank_lines, if_neg]
      simp only [List.head?_cons, ne_eq, Option.some.injEq] at h1 h2
      tauto

lemma count_indent_append (ws rest : List Char) (acc : Nat)
    (hws : ∀ c ∈ ws, c = ' ' ∨ c = '\t')
    (h1 : rest.head? ≠ some ' ') (h2 : rest.head? ≠ some '\t')
    (hacc : acc < 65536) :
    count_indent (ws ++ rest) acc
      = ((acc + 4 * ws.count '\t' + ws.count ' ') % 65536, rest) := by
  induction ws generalizing acc with
  | nil =>
      rw [List.nil_append, count_indent_no_ws rest acc h1 h2]
      simp only [List.count_nil]
      rw [Nat.mod_eq_of_lt (by omega)]
      norm_num
  | cons c ws ih =>
      have hc := hws c (List.mem_cons_self c ws)
      have hws' : ∀ d ∈ ws, d = ' ' ∨ d = '\t' := fun d hd => hws d (List.mem_cons_of_mem _ hd)
      rcases hc with hc | hc <;> subst hc
      · rw [List.cons_append, count_indent, if_pos (Or.inl rfl), if_neg (by decide),
          ih _ hws' (Nat.mod_lt _ (by omega))]
        have c1 : List.count '\t' (' ' :: ws) = List.count '\t' ws := by simp
        have c2 : List.count ' ' (' ' :: ws) = List.count ' ' ws + 1 := by simp
        rw [c1, c2]
        simp only [Prod.mk.injEq]
        exact ⟨by omega, trivial⟩
      · rw [List.cons_append, count_indent, if_pos (Or.inr rfl), if_pos rfl,
          ih _ hws' (Nat.mod_lt _ (by omega))]
        have c1 : List.count '\t' ('\t' :: ws) = List.count '\t' ws + 1 := by simp
        have c2 : List.count ' ' ('\t' :: ws) = List.count ' ' ws := by simp
        rw [c1, c2]
        simp only [Prod.mk.injEq]
        exact ⟨by omega, trivial⟩

lemma scan_newline_token {stack : IndentStack} {v : Bool} {input : List Char}
    {t : LayoutToken} {s' : IndentStack} {r : List Char}
    (h : scan_newline stack v input = some (t, s', r)) : t = LayoutToken.NEWLINE := by
  unfold scan_newline at h
  split at h
  · split at h <;> simp_all
  · exact absurd h (by simp)

/-- C7. For every scanner state whose (non-empty) indentation stack has
fewer than 256 entries, deserializing the serialized state restores an
identical state; deserializing a zero-length buffer yields the initial
stack `[0]`.  (Every reachable state has a non-empty stack: creation and
deserialization both establish size ≥ 1 and pops keep size ≥ 1.) -/
theorem serialize_roundtrip (stack : IndentStack)
    (h1 : 0 < stack.length) (h2 : stack.length < 256) :
    scanner_deserialize (scanner_serialize stack) = stack
    ∧ scanner_deserialize [] = [0] := by
  refine ⟨?_, rfl⟩
  have hs : scanner_serialize stack = stack := by
    unfold scanner_serialize MAX_INDENT_STACK
    rw [if_neg (by omega)]
  rw [hs]
  unfold scanner_deserialize
  rw [if_neg (by omega)]

/-- Witness for `serialize_roundtrip` at the two-entry stack `[4, 0]`. -/
theorem serialize_roundtrip_witness :
    scanner_deserialize (scanner_serialize [4, 0]) = [4, 0]
    ∧ scanner_deserialize [] = [0] :=
  serialize_roundtrip [4, 0] (by decide) (by decide)

/-- C4. When a line's indentation exceeds the stack top but the indent
stack already holds `MAX_INDENT_STACK` (256) entries, the scanner refuses
the line: it returns no token at all (the C function returns `false`
without pushing), which surfaces as an error on that line. -/
theorem indent_stack_overflow (stack : IndentStack) (vN : Bool)
    (input rest : List Char) (w : Nat)
    (hcount : count_indent input 0 = (w, rest))
    (hhead : ¬(rest.head? = some '\n' ∨ rest.head? = some '\r'
        ∨ rest.head? = some '#'))
    (hw : stack.headD 0 < w)
    (hfull : MAX_INDENT_STACK ≤ stack.length) :
    scan stack vN true false input = none := by
  push_neg at hhead
  obtain ⟨hn, hr, hs⟩ := hhead
  rw [scan, if_neg (by simp), scan_indent_branch, if_pos rfl]
  simp only [hcount]
  rw [skip_blank_lines_no_newline rest w hn hr]
  simp only
  rw [if_neg hs, if_pos hw, if_pos hfull]

set_option maxRecDepth 10000 in
/-- Witness for `indent_stack_overflow`: a full 256-entry stack and a line
indented by one space. -/
theorem indent_stack_overflow_witness :
    scan (0 :: List.replicate 255 0) false true false [' ', 'a'] = none :=
  indent_stack_overflow (0 :: List.replicate 255 0) false [' ', 'a'] ['a'] 1
    (by decide) (by decide) (by decide) (by decide)

lemma count_indent_rest_not_ws (input : List Char) (acc w : Nat) (rest : List Char)
    (h : count_indent input acc = (w, rest)) :
    rest.head? ≠ some ' ' ∧ rest.head? ≠ some '\t' := by
  induction input generalizing acc with
  | nil =>
      rw [count_indent] at h
      cases h
      simp
  | cons c t ih =>
      rw [count_indent] at h
      split at h
      case isTrue => exact ih _ h
      case isFalse hc =>
        cases h
        push_neg at hc
        simp only [List.head?_cons, ne_eq, Option.some.injEq]
        exact ⟨hc.1, hc.2⟩

lemma scan_newline_no_newline (stack : IndentStack) (v : Bool) (input : List Char)
    (hn : input.head? ≠ some '\n') (hr : input.head? ≠ some '\r') :
    scan_newline stack v input = none := by
  unfold scan_newline
  split
  · split
    · simp_all
    · simp_all
    · rfl
  · rfl

/-- C5 (amended). The scanner starts from the stack `[0]`; the
leading-whitespace width `w` of a line counts each tab as 4 columns and
each space as 1, in 16-bit arithmetic.  On an invocation where `INDENT` is
valid and `DEDENT` is not among the valid symbols (or the stack holds at
most one entry), the scanner pushes `w` and emits `INDENT` exactly when
`w` exceeds the stack top AND the stack holds fewer than 256 entries.  On
an invocation where `DEDENT` is valid and the stack holds more than one
entry: when `w` is below the stack top it pops one entry and emits one
`DEDENT` per invocation, and when `w` is at least the stack top it emits
nothing at all — no `INDENT` even when `w` exceeds the top — because the
`DEDENT` branch consumes the leading whitespace before falling through to
the `INDENT` branch, which then recounts a width of 0. -/
theorem layout_indent_discipline :
    scanner_create = [0]
    ∧ (∀ ws rest acc, (∀ c ∈ ws, c = ' ' ∨ c = '\t') →
        rest.head? ≠ some ' ' → rest.head? ≠ some '\t' → acc < 65536 →
        count_indent (ws ++ rest) acc
          = ((acc + 4 * ws.count '\t' + ws.count ' ') % 65536, rest))
    ∧ (∀ stack vN vD input w rest,
        (vD = false ∨ stack.length ≤ 1) →
        count_indent input 0 = (w, rest) →
        ¬(rest.head? = some '\n' ∨ rest.head? = some '\r'
            ∨ rest.head? = some '#') →
        (scan stack vN true vD input
            = some (LayoutToken.INDENT, w :: stack, rest)
          ↔ stack.headD 0 < w ∧ stack.length < MAX_INDENT_STACK))
    ∧ (∀ stack vN vI input w rest,
        1 < stack.length →
        count_indent input 0 = (w, rest) →
        rest ≠ [] →
        ¬(rest.head? = some '\n' ∨ rest.head? = some '\r'
            ∨ rest.head? = some '#') →
        w < stack.headD 0 →
        scan stack vN vI true input
          = some (LayoutToken.DEDENT, stack.tail, rest))
    ∧ (∀ stack vN vI input w rest,
        1 < stack.length →
        count_indent input 0 = (w, rest) →
        rest ≠ [] →
        ¬(rest.head? = some '\n' ∨ rest.head? = some '\r'
            ∨ rest.head? = some '#') →
        stack.headD 0 ≤ w →
        scan stack vN vI true input = none) := by
  refine ⟨rfl, count_indent_append, ?_, ?_, ?_⟩
  · intro stack vN vD input w rest hvd hcount hhead
    push_neg at hhead
    obtain ⟨hn, hr, hs⟩ := hhead
    have hside : ¬(vD = true ∧ 1 < stack.length) := by
      rintro ⟨h1, h2⟩
      rcases hvd with h | h
      · rw [h] at h1
        cases h1
      · omega
    rw [scan, if_neg hside, scan_indent_branch, if_pos rfl]
    simp only [hcount]
    rw [skip_blank_lines_no_newline rest w hn hr]
    simp only
    rw [if_neg hs]
    by_cases h1 : stack.headD 0 < w
    · rw [if_pos h1]
      by_cases h2 : MAX_INDENT_STACK ≤ stack.length
      · rw [if_pos h2]
        constructor
        · intro hx
          exact absurd hx (by simp)
        · rintro ⟨-, h3⟩
          exact absurd h3 (by omega)
      · rw [if_neg h2]
        exact ⟨fun _ => ⟨h1, by omega⟩, fun _ => rfl⟩
    · rw [if_neg h1]
      constructor
      · intro hx
        exact absurd (scan_newline_token hx) (by simp)
      · rintro ⟨h3, -⟩
        exact absurd h3 h1
  · intro stack vN vI input w rest hlen hcount hne hhead hw
    push_neg at hhead
    obtain ⟨hn, hr, hs⟩ := hhead
    rw [scan, if_pos ⟨rfl, hlen⟩]
    simp only [hcount]
    rw [if_neg hne, if_neg (by tauto), if_pos hw]
  · intro stack vN vI input w rest hlen hcount hne hhead hge
    push_neg at hhead
    obtain ⟨hn, hr, hs⟩ := hhead
    obtain ⟨hw1, hw2⟩ := count_indent_rest_not_ws input 0 w rest hcount
    rw [scan, if_pos ⟨rfl, hlen⟩]
    simp only [hcount]
    rw [if_neg hne, if_neg (by tauto), if_neg (by omega)]
    cases vI with
    | false =>
        rw [scan_indent_branch, if_neg (by simp)]
        exact scan_newline_no_newline stack vN rest hn hr
    | true =>
        rw [scan_indent_branch, if_pos rfl]
        simp only [count_indent_no_ws rest 0 hw1 hw2]
        rw [skip_blank_lines_no_newline rest 0 hn hr]
        simp only
        rw [if_neg hs, if_neg (by omega)]
        exact scan_newline_no_newline stack vN rest hn hr

/-- Witness for `layout_indent_discipline`: the width of `" \t"` is 5;
on stack `[0]` with `DEDENT` invalid the line `"  x"` produces `INDENT`
pushing 2; on stack `[4, 0]` (top 4) the unindented line `"x"` produces
one `DEDENT`; on stack `[1, 0]` with all symbols valid the line `" x"`
(width 1 = top) produces nothing. -/
theorem layout_indent_discipline_witness :
    count_indent ([' ', '\t'] ++ ['x']) 0
      = ((0 + 4 * List.count '\t' [' ', '\t'] + List.count ' ' [' ', '\t']) % 65536, ['x'])
    ∧ scan [0] false true false [' ', ' ', 'x']
        = some (LayoutToken.INDENT, [2, 0], ['x'])
    ∧ scan [4, 0] false false true ['x']
        = some (LayoutToken.DEDENT, [0], ['x'])
    ∧ scan [1, 0] true true true [' ', 'x'] = none :=
  ⟨layout_indent_discipline.2.1 [' ', '\t'] ['x'] 0 (by decide) (by decide)
      (by decide) (by decide),
    (layout_indent_discipline.2.2.1 [0] false false [' ', ' ', 'x'] 2 ['x']
      (Or.inl rfl) (by decide) (by decide)).mpr (by decide),
    layout_indent_discipline.2.2.2.1 [4, 0] false false ['x'] 0 ['x']
      (by decide) (by decide) (by decide) (by decide) (by decide),
    layout_indent_discipline.2.2.2.2 [1, 0] true true [' ', 'x'] 1 ['x']
      (by decide) (by decide) (by decide) (by decide) (by decide)⟩

set_option maxRecDepth 10000 in
/-- Counterexample to C5 as stated, in both of its failure modes.  First:
on a full 256-entry stack, a line of width 1 > top 0 makes the scanner
emit nothing — no push, no `INDENT`.  Second: on stack `[2, 0]` (depth 2,
room to push) with all three symbols valid, the line `"    x"` of width
4 > top 2 also makes the scanner emit nothing, because the `DEDENT` branch
consumes the whitespace and the `INDENT` branch recounts width 0.  Both
refute "pushes `w` and emits `INDENT` exactly when `w` exceeds the top of
the stack". -/
theorem layout_indent_claim_counterexample :
    ((0 :: List.replicate 255 0 : IndentStack).length = 256
      ∧ (0 :: List.replicate 255 0 : IndentStack).headD 0
          < (count_indent [' ', 'a'] 0).1
      ∧ scan (0 :: List.replicate 255 0) false true false [' ', 'a'] = none)
    ∧ (([2, 0] : IndentStack).headD 0
          < (count_indent [' ', ' ', ' ', ' ', 'x'] 0).1
      ∧ ([2, 0] : IndentStack).length < 256
      ∧ scan [2, 0] true true true [' ', ' ', ' ', ' ', 'x'] = none) := by
  refine ⟨⟨by decide, by decide, ?_⟩, by decide, by decide, ?_⟩
  · rw [scan, if_neg (by simp), scan_indent_branch, if_pos rfl]
    have hcount : count_indent [' ', 'a'] 0 = (1, ['a']) := by decide
    simp only [hcount]
    rw [skip_blank_lines_no_newline ['a'] 1 (by decide) (by decide)]
    simp only
    rw [if_neg (by decide), if_pos (by decide), if_pos (by decide)]
  · rw [scan, if_pos ⟨rfl, by decide⟩]
    have hcount : count_indent [' ', ' ', ' ', ' ', 'x'] 0 = (4, ['x']) := by decide
    simp only [hcount]
    rw [if_neg (by decide), if_neg (by decide), if_neg (by decide)]
    rw [scan_indent_branch, if_pos rfl]
    have hc2 : count_indent ['x'] 0 = (0, ['x']) := by decide
    simp only [hc2]
    rw [skip_blank_lines_no_newline ['x'] 0 (by decide) (by decide)]
    simp only
    rw [if_neg (by decide), if_neg (by decide)]
    decide

/-! ## Driver (src/main.c)

The driver orchestrates stages whose sources are outside this repository
slice (parser, checker, codegen); their outcomes are abstracted into a
`PipelineOutcome` record and success booleans, and the driver's own control
flow — the code under verification — is modelled faithfully.  `snprintf`
buffer truncation (buffers of 256/1024 bytes) is not modelled; theorems
about command lines therefore carry a bound on the file-name length under
which truncation cannot occur. -/

/-- Outcomes of the front-end stages as observed by the driver:
`parser_had_error(parser)`, the statement vector returned by `parse_stmts`
(`none` models a NULL pointer, `some n` a vector with `len = n`),
`checker_check_stmts`'s return value, and `checker_has_errors`. -/
structure PipelineOutcome where
  parserHadError : Bool
  stmts : Option Nat
  checkOk : Bool
  checkerHasErrors : Bool
  deriving DecidableEq, Repr

/-- `compile_to_qbe` (main.c lines 110–142): returns whether a non-NULL
`Codegen` is produced.
```c
if (parser_had_error(parser)) { ... return NULL; }
if (!stmts || stmts->len == 0) { fprintf(stderr, "Error: No statements found in %s\n", ...); return NULL; }
if (!check_ok || checker_has_errors(checker)) { ... return NULL; }
return cg;
``` -/
def compile_to_qbe (o : PipelineOutcome) : Bool :=
  if o.parserHadError then false
  else if o.stmts = none ∨ o.stmts = some 0 then false
  else if ¬o.checkOk ∨ o.checkerHasErrors then false
  else true

/-- The `base` computation in `get_basename`: the suffix after the last
`'/'` or `'\\'` (the C loop re-points `base` past each separator). -/
def after_last_slash (l : List Char) : List Char :=
  l.foldl (fun acc c => if c = '/' ∨ c = '\\' then [] else acc ++ [c]) []

/-- The extension strip in `get_basename`: everything before the last
`'.'`, or the whole name when there is no dot. -/
def before_last_dot : List Char → List Char
  | [] => []
  | c :: rest =>
      if c = '.' ∧ rest.contains '.' = false then []
      else c :: before_last_dot rest

/-- `get_basename` (main.c lines 65–86). -/
def get_basename (filename : String) : String :=
  ⟨before_last_dot (after_last_slash filename.toList)⟩

/-- `run_qbe_and_link` (main.c lines 150–190): the three shell commands in
order, stopping after the first failure; returns the commands issued and
the exit code. -/
def run_qbe_and_link (ssa_file output_file : String)
    (qbeOk ccAsmOk ccLinkOk : Bool) : List String × Nat :=
  let cmd1 := "qbe -o " ++ output_file ++ ".s " ++ ssa_file ++ " 2>&1"
  let cmd2 := "cc -c -o " ++ (output_file ++ ".o") ++ " " ++ output_file ++ ".s 2>&1"
  let cmd3 := "cc -o " ++ output_file ++ " " ++ (output_file ++ ".o") ++ " 2>&1"
  if qbeOk = false then ([cmd1], 1)
  else if ccAsmOk = false then ([cmd1, cmd2], 1)
  else if ccLinkOk = false then ([cmd1, cmd2, cmd3], 1)
  else ([cmd1, cmd2, cmd3], 0)

/-- `cmd_build` (main.c lines 200–241): exit code, external commands
issued, and the name of the produced executable (`some` exactly when the
`"Created executable"` message is printed). -/
def cmd_build (filename : String) (readOk : Bool) (o : PipelineOutcome)
    (writeOk qbeOk ccAsmOk ccLinkOk : Bool) : Nat × List String × Option String :=
  if readOk = false then (1, [], none)
  else if compile_to_qbe o = false then (1, [], none)
  else
    let base := get_basename filename
    if writeOk = false then (1, [], none)
    else
      let r := run_qbe_and_link (base ++ ".ssa") base qbeOk ccAsmOk ccLinkOk
      (r.2, r.1, if r.2 = 0 then some base else none)

/-- `cmd_check` (main.c lines 249–280): exit code and stdout lines
(diagnostics go to stderr and are not part of stdout). -/
def cmd_check (filename : String) (readOk : Bool)
    (parserHadError checkOk hasErrors : Bool) : Nat × List String :=
  if readOk = false then (1, [])
  else if parserHadError then (1, [])
  else if ¬checkOk ∨ hasErrors then (1, [])
  else (0, ["✓ " ++ filename ++ ": No type errors"])

/-- `cmd_emit` (main.c lines 288–307): exit code, and whether
`codegen_emit` ran (IR written to stdout). -/
def cmd_emit (readOk : Bool) (o : PipelineOutcome) : Nat × Bool :=
  if readOk = false then (1, false)
  else if compile_to_qbe o = false then (1, false)
  else (0, true)

/-- `pat` is a prefix of `s` (auxiliary for stating the absence of a
runtime library in the link commands). -/
def starts_with : List Char → List Char → Bool
  | [], _ => true
  | _ :: _, [] => false
  | p :: ps, c :: cs => p == c && starts_with ps cs

/-- `pat` occurs as a contiguous substring of `s`. -/
def has_substring (pat : List Char) : List Char → Bool
  | [] => starts_with pat []
  | c :: rest => starts_with pat (c :: rest) || has_substring pat rest

/-! ### Driver lemmas and theorems -/

lemma foldl_no_slash (l acc : List Char)
    (h : ∀ c ∈ l, ¬(c = '/' ∨ c = '\\')) :
    l.foldl (fun acc c => if c = '/' ∨ c = '\\' then [] else acc ++ [c]) acc
      = acc ++ l := by
  induction l generalizing acc with
  | nil => simp
  | cons c t ih =>
      rw [List.foldl_cons, if_neg (h c (List.mem_cons_self c t)),
        ih _ (fun d hd => h d (List.mem_cons_of_mem _ hd))]
      simp

lemma after_last_slash_append (dir rest : List Char)
    (h : ∀ c ∈ rest, ¬(c = '/' ∨ c = '\\')) :
    after_last_slash (dir ++ '/' :: rest) = rest := by
  unfold after_last_slash
  rw [List.foldl_append, List.foldl_cons, if_pos (Or.inl rfl),
    foldl_no_slash rest [] h, List.nil_append]

lemma before_last_dot_append (stem ext : List Char)
    (hext : ext.contains '.' = false) :
    before_last_dot (stem ++ '.' :: ext) = stem := by
  induction stem with
  | nil => rw [List.nil_append, before_last_dot, if_pos ⟨rfl, hext⟩]
  | cons c t ih =>
      rw [List.cons_append, before_last_dot, if_neg, ih]
      rintro ⟨-, h2⟩
      simp at h2

/-- C2 (amended). A successfully parsed but empty program (zero
statements) is rejected by the driver: `compile_to_qbe` returns NULL
(after printing `"Error: No statements found"`), and both `emit` and
`build` exit with code 1 without emitting any IR. -/
theorem empty_program_rejected (o : PipelineOutcome)
    (hp : o.parserHadError = false) (hs : o.stmts = some 0) :
    compile_to_qbe o = false
    ∧ (cmd_emit true o).1 = 1
    ∧ (cmd_emit true o).2 = false
    ∧ (∀ f writeOk qbeOk ccAsmOk ccLinkOk,
        (cmd_build f true o writeOk qbeOk ccAsmOk ccLinkOk).1 = 1) := by
  have hc : compile_to_qbe o = false := by
    unfold compile_to_qbe
    rw [if_neg (by simp [hp]), if_pos (by simp [hs])]
  refine ⟨hc, ?_, ?_, ?_⟩
  · simp [cmd_emit, hc]
  · simp [cmd_emit, hc]
  · intro f writeOk qbeOk ccAsmOk ccLinkOk
    simp [cmd_build, hc]

/-- Witness for `empty_program_rejected` at the concrete outcome of a
parse succeeding with zero statements and a clean checker. -/
theorem empty_program_rejected_witness :
    compile_to_qbe ⟨false, some 0, true, false⟩ = false
    ∧ (cmd_emit true ⟨false, some 0, true, false⟩).1 = 1
    ∧ (cmd_emit true ⟨false, some 0, true, false⟩).2 = false
    ∧ (∀ f writeOk qbeOk ccAsmOk ccLinkOk,
        (cmd_build f true ⟨false, some 0, true, false⟩
          writeOk qbeOk ccAsmOk ccLinkOk).1 = 1) :=
  empty_program_rejected ⟨false, some 0, true, false⟩ rfl rfl

/-- Counterexample to C2 as stated: on a source that parses cleanly into
zero statements (with a clean checker), `emit` exits with code 1 — not 0 —
and writes no IR at all, and `build` exits with code 1 as well. -/
theorem empty_program_claim_counterexample :
    (cmd_emit true ⟨false, some 0, true, false⟩).1 ≠ 0
    ∧ (cmd_emit true ⟨false, some 0, true, false⟩).2 = false
    ∧ (cmd_build "f.fn" true ⟨false, some 0, true, false⟩ true true true true).1 ≠ 0 := by
  refine ⟨?_, rfl, ?_⟩ <;> decide

/-- C3 (amended). With a readable source, a successful pipeline and all
external tools succeeding, `build` runs `qbe` on the emitted IR file to
produce assembly, then the system C compiler to assemble, then the C
compiler again to link the object file alone — no runtime library appears
in the link command — and the executable is named by `get_basename`,
which strips any directory prefix and the extension. -/
theorem build_pipeline_amended (filename : String) (o : PipelineOutcome)
    (hco : compile_to_qbe o = true) (_hlen : filename.length ≤ 200) :
    cmd_build filename true o true true true true
      = (0,
         ["qbe -o " ++ get_basename filename ++ ".s "
              ++ (get_basename filename ++ ".ssa") ++ " 2>&1",
          "cc -c -o " ++ (get_basename filename ++ ".o") ++ " "
              ++ get_basename filename ++ ".s 2>&1",
          "cc -o " ++ get_basename filename ++ " "
              ++ (get_basename filename ++ ".o") ++ " 2>&1"],
         some (get_basename filename))
    ∧ (∀ dir stem ext : List Char,
        (∀ c ∈ stem, ¬(c = '/' ∨ c = '\\')) →
        (∀ c ∈ ext, ¬(c = '/' ∨ c = '\\' ∨ c = '.')) →
        get_basename ⟨dir ++ '/' :: (stem ++ '.' :: ext)⟩ = ⟨stem⟩) := by
  constructor
  · simp [cmd_build, hco, run_qbe_and_link]
  · intro dir stem ext hstem hext
    show (⟨before_last_dot (after_last_slash
      (String.toList ⟨dir ++ '/' :: (stem ++ '.' :: ext)⟩))⟩ : String) = ⟨stem⟩
    have htl : String.toList ⟨dir ++ '/' :: (stem ++ '.' :: ext)⟩
        = dir ++ '/' :: (stem ++ '.' :: ext) := rfl
    have hrest : ∀ c ∈ stem ++ '.' :: ext, ¬(c = '/' ∨ c = '\\') := by
      intro c hc
      rcases List.mem_append.mp hc with h | h
      · exact fun hx => (hstem c h) hx
      · rcases List.mem_cons.mp h with h | h
        · subst h; rintro (h | h) <;> exact absurd h (by decide)
        · exact fun hx => (hext c h) (by tauto)
    have hdot : ext.contains '.' = false := by
      have : ('.' : Char) ∉ ext := fun hmem => (hext '.' hmem) (Or.inr (Or.inr rfl))
      simpa using this
    rw [htl, after_last_slash_append dir _ hrest, before_last_dot_append stem ext hdot]

/-- Witness for `build_pipeline_amended` on `"dir/prog.fn"`. -/
theorem build_pipeline_amended_witness :
    cmd_build "dir/prog.fn" true ⟨false, some 1, true, false⟩ true true true true
      = (0,
         ["qbe -o " ++ get_basename "dir/prog.fn" ++ ".s "
              ++ (get_basename "dir/prog.fn" ++ ".ssa") ++ " 2>&1",
          "cc -c -o " ++ (get_basename "dir/prog.fn" ++ ".o") ++ " "
              ++ get_basename "dir/prog.fn" ++ ".s 2>&1",
          "cc -o " ++ get_basename "dir/prog.fn" ++ " "
              ++ (get_basename "dir/prog.fn" ++ ".o") ++ " 2>&1"],
         some (get_basename "dir/prog.fn"))
    ∧ get_basename ⟨"dir".toList ++ '/' :: ("prog".toList ++ '.' :: "fn".toList)⟩
        = ⟨"prog".toList⟩ :=
  ⟨(build_pipeline_amended "dir/prog.fn" ⟨false, some 1, true, false⟩
      (by decide) (by decide)).1,
    (build_pipeline_amended "dir/prog.fn" ⟨false, some 1, true, false⟩
      (by decide) (by decide)).2 "dir".toList "prog".toList "fn".toList
      (by decide) (by decide)⟩

/-- Counterexample to C3 as stated: for `"dir/prog.fn"` with every stage
and tool succeeding, the three commands `build` issues are exactly these,
and none of them — in particular the final link command, which links the
object file alone — mentions the runtime library (no `"runtime"` and no
`"-l"` substring anywhere). -/
theorem build_runtime_link_counterexample :
    cmd_build "dir/prog.fn" true ⟨false, some 1, true, false⟩ true true true true
      = (0, ["qbe -o prog.s prog.ssa 2>&1",
             "cc -c -o prog.o prog.s 2>&1",
             "cc -o prog prog.o 2>&1"], some "prog")
    ∧ (∀ cmd ∈ (cmd_build "dir/prog.fn" true ⟨false, some 1, true, false⟩
          true true true true).2.1,
        has_substring "runtime".toList cmd.toList = false
        ∧ has_substring "-l".toList cmd.toList = false) := by
  constructor
  · decide
  · decide

/-- C6. `check <file>` exits 0 and prints `✓ <file>: No type errors` to
stdout exactly when the file was read and parsing and type checking
report no errors; on a file-read, parse or type error it exits 1. -/
theorem check_success_iff (f : String) (readOk pErr cOk hErr : Bool) :
    (cmd_check f readOk pErr cOk hErr
        = (0, ["✓ " ++ f ++ ": No type errors"])
      ↔ readOk = true ∧ pErr = false ∧ cOk = true ∧ hErr = false)
    ∧ ((readOk = false ∨ pErr = true ∨ cOk = false ∨ hErr = true) →
        (cmd_check f readOk pErr cOk hErr).1 = 1) := by
  cases readOk <;> cases pErr <;> cases cOk <;> cases hErr <;>
    simp [cmd_check]

/-- Witness for `check_success_iff`: the success case and a read failure. -/
theorem check_success_iff_witness :
    cmd_check "a.fn" true false true false
      = (0, ["✓ " ++ "a.fn" ++ ": No type errors"])
    ∧ (cmd_check "a.fn" false false true false).1 = 1 :=
  ⟨(check_success_iff "a.fn" true false true false).1.mpr ⟨rfl, rfl, rfl, rfl⟩,
    (check_success_iff "a.fn" false false true false).2 (Or.inl rfl)⟩

/-- The observable events of `main` (main.c lines 317–351). -/
inductive DriverEvent
  | arenaCreate
  | runSubcommand (name : String)
  | printUsage
  | arenaDestroy
  | exitMain (code : Nat)
  deriving DecidableEq, Repr

/-- `main` as its event trace: usage check, arena creation, command
dispatch (`cmd_build` / `cmd_check` / `cmd_emit` perform no arena
operations and always return), `arena_destroy`, return. -/
def fern_main (args : List String) (arenaOk : Bool)
    (buildResult checkResult emitResult : Nat) : List DriverEvent :=
  if args.length < 3 then [DriverEvent.printUsage, DriverEvent.exitMain 1]
  else
    let command := args.getD 1 ""
    if arenaOk = false then [DriverEvent.exitMain 1]
    else
      let sub : List DriverEvent × Nat :=
        if command = "build" then ([DriverEvent.runSubcommand "build"], buildResult)
        else if command = "check" then ([DriverEvent.runSubcommand "check"], checkResult)
        else if command = "emit" then ([DriverEvent.runSubcommand "emit"], emitResult)
        else ([DriverEvent.printUsage], 1)
      DriverEvent.arenaCreate :: sub.1
        ++ [DriverEvent.arenaDestroy, DriverEvent.exitMain sub.2]

/-- C8. Once `arena_create` succeeds, every path of every subcommand —
build, check, emit, and the unknown-command branch — destroys the arena
exactly once, immediately before `main` returns; `main` never returns
with the arena live. -/
theorem arena_destroy_balanced (args : List String) (b c e : Nat)
    (hargs : 3 ≤ args.length) :
    ∃ mid code, fern_main args true b c e
        = [DriverEvent.arenaCreate, mid, DriverEvent.arenaDestroy,
            DriverEvent.exitMain code]
      ∧ (fern_main args true b c e).count DriverEvent.arenaDestroy = 1
      ∧ (fern_main args true b c e).count DriverEvent.arenaCreate = 1 := by
  simp only [fern_main]
  rw [if_neg (by omega), if_neg (by simp)]
  split_ifs <;> exact ⟨_, _, rfl, by simp [List.count_cons], by simp [List.count_cons]⟩

/-- Witness for `arena_destroy_balanced` on `fern check a.fn`. -/
theorem arena_destroy_balanced_witness :
    ∃ mid code, fern_main ["fern", "check", "a.fn"] true 0 0 0
        = [DriverEvent.arenaCreate, mid, DriverEvent.arenaDestroy,
            DriverEvent.exitMain code]
      ∧ (fern_main ["fern", "check", "a.fn"] true 0 0 0).count
          DriverEvent.arenaDestroy = 1
      ∧ (fern_main ["fern", "check", "a.fn"] true 0 0 0).count
          DriverEvent.arenaCreate = 1 :=
  arena_destroy_balanced ["fern", "check", "a.fn"] 0 0 0 (by decide)

end Fern
